import Mathlib

/-!
Verification of the contamination checker (`src/ccheck.cc`) of
mapping-iterative-assembler.  The definitions below are a shallow
embedding of the classification core: the ambiguity/consistency model,
the diagnostic-position index (`mk_dp_list`), the two-pass classifier
(`update_class`, the Pass 1 upgrade step, the Pass 2 voting step, the
front/back half-fragment merging) and the Wilson-interval summary
(`print_results`).  C strings are embedded as lists of characters,
`std::map<int, Dp>` as a coordinate-sorted association list, and the
`double` arithmetic of `print_results` as exact real arithmetic.
-/

namespace Ccheck

/-- Strength tiers of a diagnostic position (ccheck.cc line 94):
`enum Strength { weak, effective, strong }`. -/
inductive Strength where
  | weak
  | effective
  | strong
deriving DecidableEq, Repr

/-- Numeric value of a `Strength` as the C enum value (weak = 0,
effective = 1, strong = 2); used to embed the comparison
`strength > weak`. -/
def strengthRank : Strength → Nat
  | Strength.weak => 0
  | Strength.effective => 1
  | Strength.strong => 2

/-- Diagnostic-position record (ccheck.cc lines 95-98): consensus base,
assembly base, discovered-contaminant base, and strength. -/
structure Dp where
  consensus : Char
  assembly : Char
  contaminant : Char
  strength : Strength
deriving DecidableEq, Repr

/-- The diagnostic-position index `typedef std::map<int, Dp> dp_list`
(ccheck.cc line 99), embedded as an association list sorted by
coordinate (the order in which `mk_dp_list` produces entries). -/
abbrev dp_list := List (Nat × Dp)

/-- Modelled from the spec: the ambiguity-code bitmask function
`char_to_bitmap`, declared in the mia headers and not present under
`src/`.  Per the spec an IUPAC ambiguity code denotes a set of bases
(A, C, G, T/U as bits), `N` overlaps everything, and the test is
case-insensitive; unknown symbols (including the gap) carry the empty
set. -/
def char_to_bitmap (c : Char) : Nat :=
  match c.toUpper with
  | 'A' => 1
  | 'C' => 2
  | 'G' => 4
  | 'T' => 8
  | 'U' => 8
  | 'R' => 5
  | 'Y' => 10
  | 'S' => 6
  | 'W' => 9
  | 'K' => 12
  | 'M' => 3
  | 'B' => 14
  | 'D' => 13
  | 'H' => 11
  | 'V' => 7
  | 'N' => 15
  | _ => 0

/-- Modelled from the spec: `compatible`, declared in the mia headers and
not present under `src/`.  Two symbols are compatible iff their
ambiguity bitmasks share a common base. -/
def compatible (a b : Char) : Bool :=
  char_to_bitmap a &&& char_to_bitmap b ≠ 0

/-- ccheck.cc lines 104-107: a column is strongly diagnostic iff neither
symbol is a gap and the symbols are not compatible. -/
def is_strongly_diagnostic (a b : Char) : Bool :=
  a ≠ '-' && b ≠ '-' && !compatible a b

/-- ccheck.cc lines 111-114: a column is weakly diagnostic iff neither
symbol is a gap and the upper-cased symbols differ. -/
def is_weakly_diagnostic (a b : Char) : Bool :=
  a ≠ '-' && b ≠ '-' && a.toUpper ≠ b.toUpper

/-- ccheck.cc lines 116-129: `is_transversion`.  Both arguments are
upper-cased by clearing bit 5 (`a & ~32`); the result is `true` when the
first symbol is one of A, C, G, T, U and the second differs from the
first symbol's transition partner. -/
def is_transversion (a b : Char) : Bool :=
  let u := a.toNat &&& 0xffffffdf
  let v := b.toNat &&& 0xffffffdf
  if u = 'A'.toNat then v ≠ 'G'.toNat
  else if u = 'C'.toNat then v ≠ 'T'.toNat
  else if u = 'G'.toNat then v ≠ 'A'.toNat
  else if u = 'T'.toNat ∨ u = 'U'.toNat then v ≠ 'C'.toNat
  else false

/-- The claim's reading of the transversion test, following the spec's
words: true iff the two bases are, case-insensitively, a
purine/pyrimidine mismatch (purines A, G; pyrimidines C, T, U);
anything outside that alphabet, and any purine/purine or
pyrimidine/pyrimidine pair, is no transversion. -/
def claim_transversion (a b : Char) : Bool :=
  let purine (c : Char) : Bool := c.toUpper = 'A' || c.toUpper = 'G'
  let pyrimidine (c : Char) : Bool :=
    c.toUpper = 'C' || c.toUpper = 'T' || c.toUpper = 'U'
  (purine a && pyrimidine b) || (pyrimidine a && purine b)

/-- Transition partner of a base as used in the `switch` of
`is_transversion`: A pairs with G, C with T, G with A, T and U with C;
`none` for any symbol outside the five-letter alphabet
(case-insensitively). -/
def transition_partner (c : Char) : Option Char :=
  match c with
  | 'A' => some 'G'
  | 'a' => some 'G'
  | 'C' => some 'T'
  | 'c' => some 'T'
  | 'G' => some 'A'
  | 'g' => some 'A'
  | 'T' => some 'C'
  | 't' => some 'C'
  | 'U' => some 'C'
  | 'u' => some 'C'
  | _ => none

/-- Amended description of `is_transversion`: true iff the first symbol
has a transition partner (i.e. is one of A, C, G, T, U up to case) and
the upper-cased second symbol is not that partner. -/
def is_transversion_amended (a b : Char) : Bool :=
  match transition_partner a with
  | none => false
  | some p => b.toUpper ≠ p

/-- Skip loop of `mk_dp_list` (ccheck.cc lines 135-141): advance over
alignment columns, counting assembly coordinates (the counter increments
only when the assembly-side symbol is not a gap), until the counter
reaches `f` or the columns run out.  Returns the remaining columns and
the final counter. -/
def mk_dp_skip : List (Char × Char) → Nat → Nat → List (Char × Char) × Nat
  | [], i, _ => ([], i)
  | (a, b) :: rest, i, f =>
    if i = f then ((a, b) :: rest, i)
    else mk_dp_skip rest (if b ≠ '-' then i + 1 else i) f

/-- Entry stored by `mk_dp_list` for a weakly diagnostic column
(ccheck.cc lines 144-148): the consensus and assembly symbols, a
value-initialized contaminant byte, and strength `strong` when the
column is strongly diagnostic, else `weak`. -/
def mkDpEntry (a b : Char) : Dp :=
  ⟨a, b, Char.ofNat 0,
    if is_strongly_diagnostic a b then Strength.strong else Strength.weak⟩

/-- Main loop of `mk_dp_list` (ccheck.cc lines 142-152): for every column
until the assembly coordinate reaches `t` (or the columns run out),
record an entry at the current coordinate whenever the column is weakly
diagnostic. -/
def mk_dp_scan : List (Char × Char) → Nat → Nat → dp_list
  | [], _, _ => []
  | (a, b) :: rest, i, t =>
    if i = t then []
    else if is_weakly_diagnostic a b then
      (i, mkDpEntry a b) :: mk_dp_scan rest (if b ≠ '-' then i + 1 else i) t
    else mk_dp_scan rest (if b ≠ '-' then i + 1 else i) t

/-- ccheck.cc lines 132-154: build the diagnostic-position index from the
global alignment (given as a list of columns, consensus symbol first)
restricted to the assembly-coordinate span `[f, t)`. -/
def mk_dp_list (cols : List (Char × Char)) (f t : Nat) : dp_list :=
  let s := mk_dp_skip cols 0 f
  mk_dp_scan s.1 s.2 t

/-- Annotate every alignment column with its assembly coordinate: the
coordinate of a column is the number of non-gap assembly-side symbols
strictly before it (plus the starting offset `i`). -/
def coord_cols : List (Char × Char) → Nat → List (Nat × Char × Char)
  | [], _ => []
  | (a, b) :: rest, i => (i, a, b) :: coord_cols rest (if b ≠ '-' then i + 1 else i)

/-- The claim's reading of `mk_dp_list`: an entry at assembly coordinate
`c` exactly for the columns whose coordinate lies in `[f, t)` and which
are weakly diagnostic, storing that column's symbols with strength
`strong` iff the column is strongly diagnostic. -/
def dp_entries (cols : List (Char × Char)) (f t : Nat) : dp_list :=
  ((coord_cols cols 0).filter
      (fun e => decide (f ≤ e.1) && (decide (e.1 < t) && is_weakly_diagnostic e.2.1 e.2.2))).map
    (fun e => (e.1, mkDpEntry e.2.1 e.2.2))

/-- ccheck.cc lines 178-183: `consistent`.  True if either symbol is a
gap or the ambiguity bitmask of `x` (with the deamination substitution
G→R, C→Y, case preserved, applied only in ancient-DNA mode) intersects
the bitmask of `y`. -/
def consistent (adna : Bool) (x y : Char) : Bool :=
  let x_ : Char :=
    if x = 'G' then 'R'
    else if x = 'C' then 'Y'
    else if x = 'g' then 'r'
    else if x = 'c' then 'y'
    else x
  x = '-' || y = '-' || (char_to_bitmap (if adna then x_ else x) &&& char_to_bitmap y ≠ 0)

/-- Fragment classification states (ccheck.cc line 185):
`enum whatsit { unknown, clean, dirt, conflict, nonsense, maxwhatsits }`. -/
inductive whatsit where
  | unknown
  | clean
  | dirt
  | conflict
  | nonsense
  | maxwhatsits
deriving DecidableEq, Repr

/-- ccheck.cc lines 189-196: merge two classifications. -/
def merge_whatsit (a b : whatsit) : whatsit :=
  if a = b then a
  else if a = whatsit.unknown then b
  else if b = whatsit.unknown then a
  else if a = whatsit.nonsense ∨ b = whatsit.nonsense then whatsit.nonsense
  else whatsit.conflict

/-- ccheck.cc lines 298-306: `update_class`, the per-position class-merge
update applied to one tally.  The five `if` statements run in sequence
on the mutable class, then the vote counter increments when exactly one
predicate holds. -/
def update_class (k : whatsit) (v : Nat) (mc md : Bool) : whatsit × Nat :=
  let k1 := if mc = true ∧ md = false ∧ k = whatsit.unknown then whatsit.clean else k
  let k2 := if mc = true ∧ md = false ∧ k1 = whatsit.dirt then whatsit.conflict else k1
  let k3 := if mc = false ∧ md = true ∧ k2 = whatsit.unknown then whatsit.dirt else k2
  let k4 := if mc = false ∧ md = true ∧ k3 = whatsit.clean then whatsit.conflict else k3
  let k5 := if mc = false ∧ md = false then whatsit.nonsense else k4
  let v1 := if mc ≠ md then v + 1 else v
  (k5, v1)

/-- State of the two Pass 2 tallies for one fragment (ccheck.cc lines
720-722): the strong-only class and votes (`klass`, `votes`) and the
effective-union-strong class and votes (`klass2`, `votes2`). -/
structure Pass2State where
  klass : whatsit
  votes : Nat
  klass2 : whatsit
  votes2 : Nat
deriving DecidableEq, Repr

/-- Pass 2 voting step for one diagnostic position (ccheck.cc lines
777-797): given the position's record `dp`, the fragment's
reference-relative call `fr` and assembly-relative call `fa`, skip on
disagreement; otherwise compute `maybe_clean`/`maybe_dirt` and update
the combined tally with `(maybe_clean, maybe_dirt && !maybe_clean)` and,
when the position is strong, the strong-only tally with
`(maybe_clean, maybe_dirt)`. -/
def pass2_step (adna : Bool) (st : Pass2State) (dp : Dp) (fr fa : Char) : Pass2State :=
  if fr ≠ fa then st
  else
    let mc := consistent adna dp.assembly fa
    let md := consistent adna dp.consensus fr
    let u2 := update_class st.klass2 st.votes2 mc (md && !mc)
    let u1 :=
      if dp.strength = Strength.strong then update_class st.klass st.votes mc md
      else (st.klass, st.votes)
    ⟨u1.1, u1.2, u2.1, u2.2⟩

/-- One piece of Pass 1 evidence at a diagnostic position: the
fragment's base read against the excised reference (`fr`, the code's
`*in_frag_v_ref`) and against the assembly (`fa`, `*in_frag_v_ass`). -/
structure Ev where
  fr : Char
  fa : Char
deriving DecidableEq, Repr

/-- Pass 1 discovery step for one diagnostic position (ccheck.cc lines
648-669): skip when the two views of the fragment's call disagree;
otherwise, when the evidence is inconsistent with the assembly but
consistent with the consensus and the position is still weak, record the
discovered contaminant base and upgrade the position to effective. -/
def pass1_step (adna : Bool) (d : Dp) (e : Ev) : Dp :=
  if e.fr ≠ e.fa then d
  else
    if consistent adna d.assembly e.fa = false ∧ consistent adna d.consensus e.fr = true ∧
        d.strength = Strength.weak then
      { d with contaminant := e.fr, strength := Strength.effective }
    else d

/-- Whether one piece of evidence qualifies to upgrade a (weak) position:
the two views agree, the call is inconsistent with the assembly
(`!maybe_clean`) and consistent with the consensus (`maybe_dirt`). -/
def pass1_qualifies (adna : Bool) (d : Dp) (e : Ev) : Bool :=
  decide (e.fr = e.fa) && !consistent adna d.assembly e.fa && consistent adna d.consensus e.fr

/-- The evolution of one diagnostic-position record over the sequence of
evidence items Pass 1 presents to it (one per fragment crossing it, in
fragment order). -/
def pass1_run (adna : Bool) (d : Dp) (es : List Ev) : Dp :=
  es.foldl (pass1_step adna) d

/-- ccheck.cc lines 695-701: after Pass 1, erase every index entry whose
strength is still weak. -/
def prune_weak : dp_list → dp_list
  | [] => []
  | p :: rest =>
    if p.2.strength = Strength.weak then prune_weak rest else p :: prune_weak rest

/-- ccheck.cc lines 499-500: count of index entries with
`strength > weak`. -/
def num_strong (l : dp_list) : Nat :=
  l.countP (fun p => decide (0 < strengthRank p.2.strength))

/-- ccheck.cc lines 514-521: the safety gate run after building the index
and before Pass 1.  When fewer than 40 positions count as strong and the
foot-shooting override (`really`) is not set, the program returns exit
status 1; otherwise processing continues with the index unchanged. -/
def ccheck_gate (really : Bool) (l : dp_list) : Except Nat dp_list :=
  if num_strong l < 40 ∧ really = false then Except.error 1 else Except.ok l

/-- Back-half store `Bfrags` (ccheck.cc lines 523-524): classification
and vote count recorded per fragment identifier. -/
abbrev Bfrags := List (String × whatsit × Nat)

/-- Front-half finalization (ccheck.cc lines 831-852).  `bfrags` and
`bfrags2` are the stored back-half records of the strong-only and
combined tallies; the front half's own tallies are
`(klass, votes)` and `(klass2, votes2)`.  As in the source, the
strong-only tally merges with `i->second` (its own stored record), but
the combined tally — although it checks `i2 != bfrags2.end()` — also
reads `i->second`, i.e. the strong-only tally's stored record.  (The
source would dereference the end iterator if `bfrags` lacked the key
while `bfrags2` had it; reachable states always insert into both maps
together, and the embedding leaves the tally unchanged in that case.) -/
def finalize_front (bfrags bfrags2 : Bfrags) (id : String)
    (klass : whatsit) (votes : Nat) (klass2 : whatsit) (votes2 : Nat) :
    (whatsit × Nat) × (whatsit × Nat) :=
  let r1 :=
    match bfrags.lookup id with
    | none => (klass, votes)
    | some (bk, bv) => (merge_whatsit klass bk, votes + bv)
  let r2 :=
    match bfrags2.lookup id, bfrags.lookup id with
    | some _, some (bk, bv) => (merge_whatsit klass2 bk, votes2 + bv)
    | _, _ => (klass2, votes2)
  (r1, r2)

/-- The intended front-half finalization per the spec: each tally merges
with its own stored back-half record and sums its own vote counts. -/
def finalize_front_same_tally (bfrags bfrags2 : Bfrags) (id : String)
    (klass : whatsit) (votes : Nat) (klass2 : whatsit) (votes2 : Nat) :
    (whatsit × Nat) × (whatsit × Nat) :=
  let r1 :=
    match bfrags.lookup id with
    | none => (klass, votes)
    | some (bk, bv) => (merge_whatsit klass bk, votes + bv)
  let r2 :=
    match bfrags2.lookup id with
    | none => (klass2, votes2)
    | some (bk, bv) => (merge_whatsit klass2 bk, votes2 + bv)
  (r1, r2)

open Classical in
/-- ccheck.cc lines 329-347 (`print_results`): the Wilson score interval
at z = 1.96 over the contaminant count `kd` and clean count `kc`,
returning the reported (lower bound, point estimate, upper bound) in
percent after the clamps `if (lb < 0) lb = 0` and
`if (ub > 100) ub = 100`.  The source's `double` arithmetic is embedded
as exact real arithmetic. -/
noncomputable def wilson_bounds (kd kc : Nat) : ℝ × ℝ × ℝ :=
  let z : ℝ := 1.96
  let k : ℝ := (kd : ℝ)
  let n : ℝ := k + (kc : ℝ)
  let p := k / n
  let c := p + 0.5 * z * z / n
  let w := z * Real.sqrt (p * (1 - p) / n + 0.25 * z * z / (n * n))
  let dd := 1 + z * z / n
  let lb := 100 * (c - w) / dd
  let ml := 100 * p
  let ub := 100 * (c + w) / dd
  (if lb < 0 then 0 else lb, ml, if ub > 100 then 100 else ub)

/-- The interval as reported (ccheck.cc lines 355-364): when
`summary[dirt] + summary[clean]` is zero the interval is not printed
(narrative mode) or printed as `N/A` (table mode), embedded as `none`;
otherwise the clamped bounds are reported. -/
noncomputable def wilson_report (kd kc : Nat) : Option (ℝ × ℝ × ℝ) :=
  if kd + kc = 0 then none else some (wilson_bounds kd kc)

/-- C7: the classification merge operation satisfies
merge(unknown, X) = X and merge(nonsensical, X) = nonsensical for every
class X, merge(clean, clean) = clean, and
merge(clean, contaminant) = conflicting. -/
theorem merge_whatsit_laws :
    ∀ x : whatsit,
      merge_whatsit whatsit.unknown x = x ∧
      merge_whatsit whatsit.nonsense x = whatsit.nonsense ∧
      merge_whatsit whatsit.clean whatsit.clean = whatsit.clean ∧
      merge_whatsit whatsit.clean whatsit.dirt = whatsit.conflict := by
  intro x
  cases x <;> exact ⟨by rfl, by rfl, by rfl, by rfl⟩

/-- C10: with the ancient-DNA flag off, the consistency predicate is
symmetric in its two character arguments. -/
theorem consistent_false_symm :
    ∀ x y : Char, consistent false x y = consistent false y x := by
  intro x y
  simp only [consistent, if_false, Bool.false_eq_true]
  rw [Nat.land_comm]
  cases hx : decide (x = '-') <;> cases hy : decide (y = '-') <;>
    simp [hx, hy, Bool.or_comm, Bool.or_assoc, Bool.or_left_comm]

/-- C1 counterexample: a Pass 2 diagnostic position at which the
fragment's two views agree and both `maybe_clean` and `maybe_dirt` are
true nevertheless changes the fragment state — the combined tally's
class becomes clean and its vote counter increments — so the two
tallies are not updated with the same predicate pair and a both-true
position is not a no-op. -/
theorem pass2_both_true_not_noop :
    consistent false 'A' '-' = true ∧ consistent false 'C' '-' = true ∧
    pass2_step false ⟨whatsit.unknown, 0, whatsit.unknown, 0⟩
        ⟨'C', 'A', Char.ofNat 0, Strength.strong⟩ '-' '-' ≠
      ⟨whatsit.unknown, 0, whatsit.unknown, 0⟩ := by
  decide

/-- C1 (amended): at an agreeing Pass 2 position the strong-only tally
receives the pair (maybeClean, maybeDirt) and the combined tally the
pair (maybeClean, maybeDirt && !maybeClean); the two pairs coincide
unless both predicates are true, in which case the strong-only tally's
class and vote counter are unchanged while the combined tally is
updated as by a clean-only vote. -/
theorem pass2_step_amended (adna : Bool) (st : Pass2State) (dp : Dp) (c : Char) :
    (¬(consistent adna dp.assembly c = true ∧ consistent adna dp.consensus c = true) →
      pass2_step adna st dp c c =
        ⟨(if dp.strength = Strength.strong then
            update_class st.klass st.votes (consistent adna dp.assembly c)
              (consistent adna dp.consensus c)
          else (st.klass, st.votes)).1,
         (if dp.strength = Strength.strong then
            update_class st.klass st.votes (consistent adna dp.assembly c)
              (consistent adna dp.consensus c)
          else (st.klass, st.votes)).2,
         (update_class st.klass2 st.votes2 (consistent adna dp.assembly c)
            (consistent adna dp.consensus c)).1,
         (update_class st.klass2 st.votes2 (consistent adna dp.assembly c)
            (consistent adna dp.consensus c)).2⟩) ∧
    (consistent adna dp.assembly c = true → consistent adna dp.consensus c = true →
      (pass2_step adna st dp c c).klass = st.klass ∧
      (pass2_step adna st dp c c).votes = st.votes ∧
      (pass2_step adna st dp c c).klass2 = (update_class st.klass2 st.votes2 true false).1 ∧
      (pass2_step adna st dp c c).votes2 = (update_class st.klass2 st.votes2 true false).2) := by
  constructor
  · intro ha
    cases h1 : consistent adna dp.assembly c <;> cases h2 : consistent adna dp.consensus c
    · simp [pass2_step, h1, h2]
    · simp [pass2_step, h1, h2]
    · simp [pass2_step, h1, h2]
    · exact absurd ⟨h1, h2⟩ ha
  · intro ha hb
    simp [pass2_step, ha, hb, update_class]

/-- C1 amended witness: the both-true branch of `pass2_step_amended`
instantiated at an agreeing gap call over a strong position with
consensus C and assembly A. -/
theorem pass2_step_amended_witness :
    (pass2_step false ⟨whatsit.unknown, 0, whatsit.unknown, 0⟩
        ⟨'C', 'A', Char.ofNat 0, Strength.strong⟩ '-' '-').klass = whatsit.unknown ∧
    (pass2_step false ⟨whatsit.unknown, 0, whatsit.unknown, 0⟩
        ⟨'C', 'A', Char.ofNat 0, Strength.strong⟩ '-' '-').votes = 0 ∧
    (pass2_step false ⟨whatsit.unknown, 0, whatsit.unknown, 0⟩
        ⟨'C', 'A', Char.ofNat 0, Strength.strong⟩ '-' '-').klass2 =
      (update_class whatsit.unknown 0 true false).1 ∧
    (pass2_step false ⟨whatsit.unknown, 0, whatsit.unknown, 0⟩
        ⟨'C', 'A', Char.ofNat 0, Strength.strong⟩ '-' '-').votes2 =
      (update_class whatsit.unknown 0 true false).2 :=
  (pass2_step_amended false ⟨whatsit.unknown, 0, whatsit.unknown, 0⟩
      ⟨'C', 'A', Char.ofNat 0, Strength.strong⟩ '-').2 (by decide) (by decide)

/-- C2: evaluating the half-fragment merge at a back half whose two
stored tallies differ.  The strong-only tally merges clean(2 votes)
into the front's contaminant(1 vote), giving conflicting with 3 votes,
as the claim states; but the combined tally — whose own stored
back-half record is contaminant(1 vote) — also merges the strong-only
tally's record clean(2 votes) and yields conflicting with 3 votes,
whereas merging its own record would yield contaminant with 2 votes. -/
theorem front_back_merge_bug :
    finalize_front [("r1", (whatsit.clean, 2))] [("r1", (whatsit.dirt, 1))] "r1"
        whatsit.dirt 1 whatsit.dirt 1 =
      ((whatsit.conflict, 3), (whatsit.conflict, 3)) ∧
    finalize_front_same_tally [("r1", (whatsit.clean, 2))] [("r1", (whatsit.dirt, 1))] "r1"
        whatsit.dirt 1 whatsit.dirt 1 =
      ((whatsit.conflict, 3), (whatsit.dirt, 2)) ∧
    ((whatsit.conflict, 3) : whatsit × Nat) ≠ (whatsit.dirt, 2) := by
  decide

/-- C6: every entry that survives the weak-position pruning has strength
strong or effective. -/
theorem prune_weak_strong_or_effective (l : dp_list) (p : Nat × Dp)
    (h : p ∈ prune_weak l) :
    p.2.strength = Strength.strong ∨ p.2.strength = Strength.effective := by
  induction l with
  | nil => simp [prune_weak] at h
  | cons q rest ih =>
    by_cases hq : q.2.strength = Strength.weak
    · rw [prune_weak, if_pos hq] at h
      exact ih h
    · rw [prune_weak, if_neg hq] at h
      rcases List.mem_cons.mp h with h | h
      · cases hs : p.2.strength with
        | weak => exact absurd (by rw [← h]; exact hs) hq
        | effective => exact Or.inr rfl
        | strong => exact Or.inl rfl
      · exact ih h

/-- C6 witness: `prune_weak_strong_or_effective` applied to a concrete
pruned index containing a strong entry. -/
theorem prune_weak_strong_or_effective_witness :
    ((3, (⟨'A', 'C', Char.ofNat 0, Strength.strong⟩ : Dp)) : Nat × Dp).2.strength =
        Strength.strong ∨
      ((3, (⟨'A', 'C', Char.ofNat 0, Strength.strong⟩ : Dp)) : Nat × Dp).2.strength =
        Strength.effective :=
  prune_weak_strong_or_effective
    [(3, ⟨'A', 'C', Char.ofNat 0, Strength.strong⟩),
     (5, ⟨'A', 'G', Char.ofNat 0, Strength.weak⟩)]
    (3, ⟨'A', 'C', Char.ofNat 0, Strength.strong⟩) (by decide)

/-- Helper: the Pass 1 step never touches a position that is not weak. -/
theorem pass1_step_fix (adna : Bool) (d : Dp) (e : Ev)
    (hd : d.strength ≠ Strength.weak) : pass1_step adna d e = d := by
  unfold pass1_step
  split
  · rfl
  · split
    · rename_i hcond
      exact absurd hcond.2.2 hd
    · rfl

/-- Helper: a whole evidence sequence leaves a non-weak position
unchanged. -/
theorem pass1_run_fix (adna : Bool) (es : List Ev) (d : Dp)
    (hd : d.strength ≠ Strength.weak) : pass1_run adna d es = d := by
  induction es with
  | nil => rfl
  | cons e rest ih =>
    show pass1_run adna (pass1_step adna d e) rest = d
    rw [pass1_step_fix adna d e hd]
    exact ih

/-- Helper: a qualifying evidence item upgrades a weak position. -/
theorem pass1_step_of_qualifies (adna : Bool) (d : Dp) (e : Ev)
    (hd : d.strength = Strength.weak) (hq : pass1_qualifies adna d e = true) :
    pass1_step adna d e = { d with contaminant := e.fr, strength := Strength.effective } := by
  simp only [pass1_qualifies, Bool.and_eq_true, decide_eq_true_eq, Bool.not_eq_true'] at hq
  obtain ⟨⟨hag, hmc⟩, hmd⟩ := hq
  unfold pass1_step
  rw [if_neg (by simp [hag]), if_pos ⟨hmc, hmd, hd⟩]

/-- Helper: non-qualifying evidence leaves any position unchanged. -/
theorem pass1_step_of_not_qualifies (adna : Bool) (d : Dp) (e : Ev)
    (hq : ¬pass1_qualifies adna d e = true) : pass1_step adna d e = d := by
  simp only [pass1_qualifies, Bool.and_eq_true, decide_eq_true_eq, Bool.not_eq_true',
    not_and] at hq
  unfold pass1_step
  split
  · rfl
  · rename_i hag
    rw [if_neg]
    rintro ⟨hmc, hmd, -⟩
    exact hq ⟨by simpa using hag, hmc⟩ hmd

/-- C5: the Pass 1 upgrade is a one-way ratchet.  Over any sequence of
evidence items presented to one diagnostic position, a position that is
not weak is never changed at all, and a weak position is changed exactly
by the first qualifying evidence item (agreement, inconsistent with the
assembly, consistent with the consensus), which sets the discovered
contaminant base and the strength `effective` once and for all; no
later item rewrites either field. -/
theorem pass1_ratchet (adna : Bool) (d : Dp) (es : List Ev) :
    pass1_run adna d es =
      if d.strength = Strength.weak then
        match es.find? (pass1_qualifies adna d) with
        | none => d
        | some e => { d with contaminant := e.fr, strength := Strength.effective }
      else d := by
  by_cases hd : d.strength = Strength.weak
  · rw [if_pos hd]
    induction es with
    | nil => rfl
    | cons e rest ih =>
      by_cases hq : pass1_qualifies adna d e = true
      · rw [List.find?_cons_of_pos _ hq]
        show pass1_run adna (pass1_step adna d e) rest = _
        rw [pass1_step_of_qualifies adna d e hd hq]
        exact pass1_run_fix adna rest _ (by simp)
      · rw [List.find?_cons_of_neg _ hq]
        show pass1_run adna (pass1_step adna d e) rest = _
        rw [pass1_step_of_not_qualifies adna d e hq]
        exact ih
  · rw [if_neg hd]
    exact pass1_run_fix adna es d hd

/-- Helper: `mk_dp_scan` creates entries with strength strong or weak,
never effective. -/
theorem mk_dp_scan_strength (cols : List (Char × Char)) (i t : Nat) :
    ∀ p ∈ mk_dp_scan cols i t, p.2.strength ≠ Strength.effective := by
  induction cols generalizing i with
  | nil => intro p hp; simp [mk_dp_scan] at hp
  | cons cb rest ih =>
    obtain ⟨a, b⟩ := cb
    intro p hp
    by_cases hit : i = t
    · rw [mk_dp_scan, if_pos hit] at hp
      simp at hp
    · rw [mk_dp_scan, if_neg hit] at hp
      by_cases hw : is_weakly_diagnostic a b = true
      · rw [if_pos hw] at hp
        rcases List.mem_cons.mp hp with h | h
        · rw [h]
          simp only [mkDpEntry]
          split <;> simp
        · exact ih _ p h
      · rw [if_neg hw] at hp
        exact ih _ p hp

/-- Helper: on an index without effective entries, the source's count of
entries with strength above weak is the count of strong entries. -/
theorem num_strong_eq_strong_count (l : dp_list)
    (h : ∀ p ∈ l, p.2.strength ≠ Strength.effective) :
    num_strong l = l.countP (fun p => decide (p.2.strength = Strength.strong)) := by
  induction l with
  | nil => rfl
  | cons p rest ih =>
    rw [num_strong, List.countP_cons, List.countP_cons, ← num_strong,
      ih (fun q hq => h q (List.mem_cons_of_mem p hq))]
    congr 1
    cases hs : p.2.strength with
    | weak => simp [strengthRank, hs]
    | effective => exact absurd hs (h p (List.mem_cons_self p rest))
    | strong => simp [strengthRank, hs]

/-- C9: with fewer than 40 strongly diagnostic positions in the index
built from the global alignment and the foot-shooting override unset,
the safety gate that runs before Pass 1 exits with status 1; with the
override set it lets classification proceed regardless of the count. -/
theorem strong_floor_gate (cols : List (Char × Char)) (f t : Nat) (really : Bool) :
    (really = false →
      (mk_dp_list cols f t).countP (fun p => decide (p.2.strength = Strength.strong)) < 40 →
      ccheck_gate really (mk_dp_list cols f t) = Except.error 1) ∧
    (really = true →
      ccheck_gate really (mk_dp_list cols f t) = Except.ok (mk_dp_list cols f t)) := by
  have hs : ∀ p ∈ mk_dp_list cols f t, p.2.strength ≠ Strength.effective := by
    intro p hp
    rw [mk_dp_list] at hp
    exact mk_dp_scan_strength _ _ _ p hp
  constructor
  · intro hr hc
    rw [ccheck_gate, if_pos]
    exact ⟨by rw [num_strong_eq_strong_count _ hs]; exact hc, hr⟩
  · intro hr
    rw [ccheck_gate, if_neg]
    rintro ⟨-, h⟩
    rw [hr] at h
    exact Bool.noConfusion h

/-- C9 witness: one strongly diagnostic position (A against C), override
unset: the gate aborts with exit status 1. -/
theorem strong_floor_gate_witness :
    ccheck_gate false (mk_dp_list [('A', 'C')] 0 5) = Except.error 1 :=
  (strong_floor_gate [('A', 'C')] 0 5 false).1 rfl (by decide)

/-- Helper: a weakly diagnostic column has no gap on the assembly side. -/
theorem weakly_ne_gap (a b : Char) (h : is_weakly_diagnostic a b = true) : b ≠ '-' := by
  simp only [is_weakly_diagnostic, Bool.and_eq_true, decide_eq_true_eq] at h
  exact h.1.2

/-- Helper: every coordinate produced by `coord_cols` is at least the
starting offset. -/
theorem coord_cols_le (cols : List (Char × Char)) :
    ∀ i, ∀ e ∈ coord_cols cols i, i ≤ e.1 := by
  induction cols with
  | nil => intro i e he; simp [coord_cols] at he
  | cons cb rest ih =>
    obtain ⟨a, b⟩ := cb
    intro i e he
    rw [coord_cols] at he
    rcases List.mem_cons.mp he with h | h
    · rw [h]
    · have h2 := ih _ e h
      revert h2
      split <;> omega

/-- Helper: the scan loop of `mk_dp_list` records exactly the weakly
diagnostic columns whose assembly coordinate is below the stop bound. -/
theorem mk_dp_scan_eq (cols : List (Char × Char)) :
    ∀ i t, i ≤ t →
      mk_dp_scan cols i t =
        ((coord_cols cols i).filter
            (fun e => decide (e.1 < t) && is_weakly_diagnostic e.2.1 e.2.2)).map
          (fun e => (e.1, mkDpEntry e.2.1 e.2.2)) := by
  induction cols with
  | nil => intro i t _; rfl
  | cons cb rest ih =>
    obtain ⟨a, b⟩ := cb
    intro i t h
    by_cases hit : i = t
    · rw [mk_dp_scan, if_pos hit]
      have hnil : (coord_cols ((a, b) :: rest) i).filter
          (fun e => decide (e.1 < t) && is_weakly_diagnostic e.2.1 e.2.2) = [] := by
        rw [List.filter_eq_nil_iff]
        intro e he
        have hge := coord_cols_le ((a, b) :: rest) i e he
        have hd : decide (e.1 < t) = false := by simp; omega
        simp [hd]
      rw [hnil]
      rfl
    · have hlt : i < t := Nat.lt_of_le_of_ne h hit
      have hi' : (if b ≠ '-' then i + 1 else i) ≤ t := by split <;> omega
      rw [mk_dp_scan, if_neg hit, coord_cols, List.filter_cons]
      by_cases hw : is_weakly_diagnostic a b = true
      · have hb := weakly_ne_gap a b hw
        rw [if_pos hw]
        rw [if_pos hb]
        rw [if_pos (show (decide ((i, a, b).1 < t) &&
            is_weakly_diagnostic (i, a, b).2.1 (i, a, b).2.2) = true by simp [hlt, hw])]
        rw [List.map_cons, ih (i + 1) t (by omega)]
      · rw [if_neg hw]
        rw [if_neg (show ¬(decide ((i, a, b).1 < t) &&
            is_weakly_diagnostic (i, a, b).2.1 (i, a, b).2.2) = true by simp [hw])]
        exact ih _ t hi'

/-- Helper: the skip loop of `mk_dp_list` stops with counter at most the
target, reaches the target unless the columns ran out, and discards no
column whose coordinate could pass the lower span bound. -/
theorem mk_dp_skip_spec (cols : List (Char × Char)) :
    ∀ i f, i ≤ f →
      (mk_dp_skip cols i f).2 ≤ f ∧
      ((mk_dp_skip cols i f).2 = f ∨ (mk_dp_skip cols i f).1 = []) ∧
      ∀ t : Nat,
        (coord_cols cols i).filter
            (fun e => decide (f ≤ e.1) && (decide (e.1 < t) && is_weakly_diagnostic e.2.1 e.2.2)) =
          (coord_cols (mk_dp_skip cols i f).1 (mk_dp_skip cols i f).2).filter
            (fun e => decide (f ≤ e.1) && (decide (e.1 < t) && is_weakly_diagnostic e.2.1 e.2.2)) := by
  induction cols with
  | nil =>
    intro i f h
    exact ⟨h, Or.inr rfl, fun t => rfl⟩
  | cons cb rest ih =>
    obtain ⟨a, b⟩ := cb
    intro i f h
    by_cases hif : i = f
    · rw [mk_dp_skip, if_pos hif]
      exact ⟨Nat.le_of_eq hif, Or.inl hif, fun t => rfl⟩
    · have hlt : i < f := Nat.lt_of_le_of_ne h hif
      have hi' : (if b ≠ '-' then i + 1 else i) ≤ f := by split <;> omega
      rw [mk_dp_skip, if_neg hif]
      obtain ⟨h1, h2, h3⟩ := ih _ f hi'
      refine ⟨h1, h2, fun t => ?_⟩
      have hd : decide (f ≤ i) = false := by simp; omega
      rw [coord_cols, List.filter_cons, if_neg (by simp [hd])]
      exact h3 t

/-- Helper: every coordinate recorded by the scan loop is at least the
starting counter. -/
theorem mk_dp_scan_lb (cols : List (Char × Char)) :
    ∀ i t, ∀ p ∈ mk_dp_scan cols i t, i ≤ p.1 := by
  induction cols with
  | nil => intro i t p hp; simp [mk_dp_scan] at hp
  | cons cb rest ih =>
    obtain ⟨a, b⟩ := cb
    intro i t p hp
    by_cases hit : i = t
    · rw [mk_dp_scan, if_pos hit] at hp
      simp at hp
    · rw [mk_dp_scan, if_neg hit] at hp
      by_cases hw : is_weakly_diagnostic a b = true
      · rw [if_pos hw] at hp
        rcases List.mem_cons.mp hp with hh | hh
        · rw [hh]
        · have h2 := ih _ t p hh
          revert h2
          split <;> omega
      · rw [if_neg hw] at hp
        have h2 := ih _ t p hp
        revert h2
        split <;> omega

/-- Helper: the scan loop produces strictly increasing coordinates. -/
theorem mk_dp_scan_pairwise (cols : List (Char × Char)) :
    ∀ i t, List.Pairwise (fun p q : Nat × Dp => p.1 < q.1) (mk_dp_scan cols i t) := by
  induction cols with
  | nil => intro i t; simp [mk_dp_scan]
  | cons cb rest ih =>
    obtain ⟨a, b⟩ := cb
    intro i t
    by_cases hit : i = t
    · rw [mk_dp_scan, if_pos hit]
      exact List.Pairwise.nil
    · rw [mk_dp_scan, if_neg hit]
      by_cases hw : is_weakly_diagnostic a b = true
      · rw [if_pos hw, List.pairwise_cons]
        refine ⟨fun q hq => ?_, ih _ t⟩
        have h2 := mk_dp_scan_lb rest _ t q hq
        rw [if_pos (weakly_ne_gap a b hw)] at h2
        omega
      · rw [if_neg hw]
        exact ih _ t

/-- C4: over any pair of aligned columns and span `[f, t)`, `mk_dp_list`
produces exactly one entry per weakly diagnostic column whose assembly
coordinate lies in `[f, t)`; the entry is keyed by that coordinate,
stores the column's consensus and assembly symbols, and is strong
precisely when the column is strongly diagnostic (else weak); gap
columns are never indexed, and the coordinates are strictly increasing,
so there is at most one entry per coordinate. -/
theorem mk_dp_list_characterized (cols : List (Char × Char)) (f t : Nat) (h : f ≤ t) :
    mk_dp_list cols f t = dp_entries cols f t ∧
    List.Pairwise (fun p q : Nat × Dp => p.1 < q.1) (mk_dp_list cols f t) := by
  obtain ⟨hle, hstop, hfilt⟩ := mk_dp_skip_spec cols 0 f (Nat.zero_le f)
  constructor
  · rcases hstop with hf | hnil
    · rw [mk_dp_list, dp_entries, hfilt t,
        mk_dp_scan_eq (mk_dp_skip cols 0 f).1 (mk_dp_skip cols 0 f).2 t (le_trans hle h)]
      congr 1
      apply List.filter_congr
      intro e he
      have hge := coord_cols_le (mk_dp_skip cols 0 f).1 (mk_dp_skip cols 0 f).2 e he
      have hd : decide (f ≤ e.1) = true := by simp; omega
      simp [hd]
    · rw [mk_dp_list, dp_entries, hfilt t, hnil]
      simp [coord_cols, mk_dp_scan]
  · rw [mk_dp_list]
    exact mk_dp_scan_pairwise _ _ _

/-- C4 witness: the characterization evaluated on a five-column
alignment with a match, a strong mismatch, gap columns on either side,
and a weak (ambiguity-compatible) mismatch, over the span `[1, 4)`. -/
theorem mk_dp_list_characterized_witness :
    1 ≤ 4 ∧
      (mk_dp_list [('A', 'A'), ('C', 'G'), ('T', '-'), ('-', 'C'), ('N', 'A')] 1 4 =
          dp_entries [('A', 'A'), ('C', 'G'), ('T', '-'), ('-', 'C'), ('N', 'A')] 1 4 ∧
        List.Pairwise (fun p q : Nat × Dp => p.1 < q.1)
          (mk_dp_list [('A', 'A'), ('C', 'G'), ('T', '-'), ('-', 'C'), ('N', 'A')] 1 4)) :=
  ⟨by decide,
    mk_dp_list_characterized [('A', 'A'), ('C', 'G'), ('T', '-'), ('-', 'C'), ('N', 'A')] 1 4
      (by decide)⟩

/-- C8: Wilson-interval boundary behaviour at z = 1.96.  With zero
contaminant fragments and any positive clean count the reported lower
bound is 0; with every fragment contaminant the reported upper bound is
100; and with no classified fragments at all the interval is reported
as not-applicable instead of being computed. -/
theorem wilson_interval_clamps (n : Nat) (h : 0 < n) :
    (wilson_bounds 0 n).1 = 0 ∧ (wilson_bounds n 0).2.2 = 100 ∧ wilson_report 0 0 = none := by
  have hn : (0:ℝ) < (n:ℝ) := by exact_mod_cast h
  have hnn : (n:ℝ) ≠ 0 := ne_of_gt hn
  refine ⟨?_, ?_, ?_⟩
  · simp only [wilson_bounds, Nat.cast_zero, zero_add, zero_div, zero_mul, zero_sub, sub_zero,
      mul_zero, sub_self]
    rw [show (0.25:ℝ) * 1.96 * 1.96 / ((n:ℝ) * n) = (0.5 * 1.96 / n)^2 by ring]
    rw [Real.sqrt_sq (by positivity)]
    rw [show (0.5:ℝ) * 1.96 * 1.96 / (n:ℝ) - 1.96 * (0.5 * 1.96 / n) = 0 by ring]
    norm_num
  · simp only [wilson_bounds, Nat.cast_zero, add_zero]
    rw [div_self hnn]
    rw [show (1:ℝ) * (1 - 1) / (n:ℝ) + 0.25 * 1.96 * 1.96 / ((n:ℝ) * n) =
      (0.5 * 1.96 / n)^2 by ring]
    rw [Real.sqrt_sq (by positivity)]
    rw [show 100 * ((1:ℝ) + 0.5 * 1.96 * 1.96 / (n:ℝ) + 1.96 * (0.5 * 1.96 / n)) /
        (1 + 1.96 * 1.96 / n) = 100 from by
      rw [show (1:ℝ) + 0.5 * 1.96 * 1.96 / (n:ℝ) + 1.96 * (0.5 * 1.96 / n) =
        1 + 1.96 * 1.96 / n by ring]
      rw [mul_div_assoc, div_self (by positivity), mul_one]]
    norm_num
  · simp [wilson_report]

/-- C8 witness: the clamp behaviour at 50 clean fragments. -/
theorem wilson_interval_clamps_witness :
    0 < 50 ∧
      ((wilson_bounds 0 50).1 = 0 ∧ (wilson_bounds 50 0).2.2 = 100 ∧
        wilson_report 0 0 = none) :=
  ⟨by decide, wilson_interval_clamps 50 (by decide)⟩

/-- C3 counterexample: `is_transversion` is not the purine/pyrimidine
mismatch test: on the pair (A, A) — which is no mismatch at all — the
source returns true. -/
theorem is_transversion_claim_cex :
    is_transversion 'A' 'A' = true ∧ claim_transversion 'A' 'A' = false := by
  decide

set_option maxHeartbeats 4000000 in
set_option maxRecDepth 10000 in
/-- C3 (amended): over the ASCII alphabet the source's transversion test
returns true iff the first symbol, case-insensitively, is one of
A, C, G, T, U and the upper-cased second symbol differs from the first
symbol's transition partner (A↦G, C↦T, G↦A, T/U↦C).  In particular the
second symbol may be outside the nucleotide alphabet, or equal to the
first, and still count as a transversion; only the first symbol falling
outside {A,C,G,T,U} forces a false result. -/
theorem is_transversion_partner_table :
    ∀ a b : Fin 128,
      is_transversion (Char.ofNat a) (Char.ofNat b) =
        is_transversion_amended (Char.ofNat a) (Char.ofNat b) := by
  decide

end Ccheck
